import Mathlib

/-!
Verification of the remote version discovery and asset resolution layer of
the `ciel` PDK version manager (`src/ciel/source.py`), against its
natural-language specification.

The data source turns a paginated release feed into a sorted list of
installable versions and, for one chosen version, a manifest of downloadable
assets. We embed the Python code of `source.py` shallowly: machine state is
passed explicitly, the release feed is a list of release records, network
page requests are a pure paging function over that list, and Python
exceptions become an `Except` error type. Collaborators that live outside
the shown source (`common.py`: the `Version` entity and `date_from_iso8601`,
`github.py`: the session and repository record) are modelled from the
specification and marked as such.
-/

/-- Timestamp value: an ISO-8601 calendar date plus time of day, as produced
by the timestamp parsing collaborator. -/
structure Date where
  year : Nat
  month : Nat
  day : Nat
  hour : Nat
  minute : Nat
  second : Nat
deriving DecidableEq, Repr

/-- Modelled from the spec: the `Version` entity from `common.py` (not part
of the shown core). Attributes per spec section 3: `name` (opaque
identifier, typically a commit hash), `pdk` (family identifier),
`commit_date` (optional timestamp), `upload_date` (timestamp the release was
published; optional here because the timestamp parser is partial),
`prerelease` (boolean). -/
structure Version where
  name : String
  pdk : String
  commit_date : Option Date
  upload_date : Option Date
  prerelease : Bool
deriving DecidableEq, Repr

/-- One raw asset object of a release feed entry, with the two fields
`source.py` reads: `name` and `browser_download_url`. -/
structure RawAsset where
  name : String
  browser_download_url : String
deriving DecidableEq, Repr

/-- One release object of the feed, with the fields `source.py` reads:
`tag_name`, `draft`, `prerelease`, `published_at`, `body`, `assets`. -/
structure Release where
  tag_name : String
  draft : Bool
  prerelease : Bool
  published_at : String
  body : String
  assets : List RawAsset
deriving DecidableEq, Repr

/-- The `Asset` dataclass of `source.py`: `content`, `filename`, `url`. -/
structure Asset where
  content : String
  filename : String
  url : String
deriving DecidableEq, Repr

/-- Helper for the Python `str.rsplit(sep, maxsplit=1)` used on tag names:
split a character list at the LAST occurrence of `sep`. Returns `none` when
`sep` does not occur (Python would return a one-element list, whose
two-variable unpacking then raises `ValueError`). -/
def rsplitLastAux (sep : Char) : List Char → Option (List Char × List Char)
  | [] => none
  | c :: rest =>
    match rsplitLastAux sep rest with
    | some (pre, post) => some (c :: pre, post)
    | none => if c = sep then some ([], rest) else none

/-- Python `s.rsplit(sep, maxsplit=1)` on strings, with the two-element
result as a pair and the one-element (no separator) result as `none`. -/
def pyRsplit1 (sep : Char) (s : String) : Option (String × String) :=
  match rsplitLastAux sep s.data with
  | some (pre, post) => some (⟨pre⟩, ⟨post⟩)
  | none => none

/-- Helper for the Python `str.split(sep, maxsplit=1)` used on the data
source selector: split a character list at the FIRST occurrence of `sep`;
`none` when `sep` does not occur. -/
def splitFirstAux (sep : Char) : List Char → Option (List Char × List Char)
  | [] => none
  | c :: rest =>
    if c = sep then some ([], rest)
    else
      match splitFirstAux sep rest with
      | some (pre, post) => some (c :: pre, post)
      | none => none

/-- Python `s.split(sep, maxsplit=1)` on strings, with the two-element
result as a pair and the one-element (no separator) result as `none`. -/
def pySplit1 (sep : Char) (s : String) : Option (String × String) :=
  match splitFirstAux sep s.data with
  | some (pre, post) => some (⟨pre⟩, ⟨post⟩)
  | none => none

/-- Python `s.endswith(suffix)`. -/
def strEndsWith (s suffix : String) : Bool :=
  suffix.data.length ≤ s.data.length ∧
    s.data.drop (s.data.length - suffix.data.length) = suffix.data

/-- Python `s[:-n]`: all but the last `n` characters. -/
def strDropLast (s : String) (n : Nat) : String :=
  ⟨s.data.take (s.data.length - n)⟩

/-- Value of a decimal digit character, `none` for a non-digit. -/
def digitVal (c : Char) : Option Nat :=
  if c.isDigit then some (c.toNat - 48) else none

/-- Parse exactly two decimal digits from the front of a character list. -/
def parse2 : List Char → Option (Nat × List Char)
  | c1 :: c2 :: rest =>
    match digitVal c1, digitVal c2 with
    | some a, some b => some (a * 10 + b, rest)
    | _, _ => none
  | _ => none

/-- Parse exactly four decimal digits from the front of a character list. -/
def parse4 (l : List Char) : Option (Nat × List Char) :=
  match parse2 l with
  | some (a, r1) =>
    match parse2 r1 with
    | some (b, r2) => some (a * 100 + b, r2)
    | none => none
  | none => none

/-- Consume one expected character from the front of a character list. -/
def parseSep (ch : Char) : List Char → Option (List Char)
  | c :: rest => if c = ch then some rest else none
  | [] => none

/-- Range-check a parsed timestamp and build the `Date` value. -/
def validDate (y mo d h mi s : Nat) : Option Date :=
  if 1 ≤ mo ∧ mo ≤ 12 ∧ 1 ≤ d ∧ d ≤ 31 ∧ h ≤ 23 ∧ mi ≤ 59 ∧ s ≤ 59 then
    some ⟨y, mo, d, h, mi, s⟩
  else none

/-- Parse the time-of-day tail `HH:MM:SS` with an optional trailing `Z`. -/
def parseTimePart (l : List Char) : Option (Nat × Nat × Nat) :=
  match parse2 l with
  | none => none
  | some (h, r1) =>
    match parseSep ':' r1 with
    | none => none
    | some r2 =>
      match parse2 r2 with
      | none => none
      | some (mi, r3) =>
        match parseSep ':' r3 with
        | none => none
        | some r4 =>
          match parse2 r4 with
          | none => none
          | some (s, r5) =>
            match r5 with
            | [] => some (h, mi, s)
            | [c] => if c = 'Z' then some (h, mi, s) else none
            | _ => none

/-- Modelled from the spec: the timestamp parsing collaborator
`date_from_iso8601` from `common.py` (not part of the shown core). Per spec
sections 6 and 7 it converts an ISO-8601 string (`YYYY-MM-DD`, optionally
followed by `THH:MM:SS` and a trailing `Z`) to a comparable timestamp
value, and an unparseable annotation is not an error: it degrades to an
unset optional field, so the model returns an `Option`. -/
def date_from_iso8601 (s : String) : Option Date :=
  match parse4 s.data with
  | none => none
  | some (y, r1) =>
    match parseSep '-' r1 with
    | none => none
    | some r2 =>
      match parse2 r2 with
      | none => none
      | some (mo, r3) =>
        match parseSep '-' r3 with
        | none => none
        | some r4 =>
          match parse2 r4 with
          | none => none
          | some (d, r5) =>
            match r5 with
            | [] => validDate y mo d 0 0 0
            | c :: r6 =>
              if c = 'T' then
                match parseTimePart r6 with
                | none => none
                | some (h, mi, sec) => validDate y mo d h mi sec
              else none

/-- Character class of the commit-date regular expression in `source.py`
line 75: a digit, `-`, `:`, `T` or `Z`. -/
def tsChar (c : Char) : Bool :=
  c.isDigit || c = '-' || c = ':' || c = 'T' || c = 'Z'

/-- Literal part of the commit-date pattern. -/
def releasedOn : List Char := "released on ".data

/-- Attempt of the pattern at the FRONT of the list: the literal
`released on ` followed by a maximal nonempty run of timestamp characters
(the greedy `+` of the regular expression); the run is the captured group. -/
def matchReleasedAt (l : List Char) : Option (List Char) :=
  if l.take releasedOn.length = releasedOn then
    let cap := (l.drop releasedOn.length).takeWhile tsChar
    if cap = [] then none else some cap
  else none

/-- Python `re.search` of the commit-date pattern: try the pattern at every
position, left to right, and return the first captured group. -/
def commitSearch : List Char → Option (List Char)
  | [] => none
  | c :: rest =>
    match matchReleasedAt (c :: rest) with
    | some cap => some cap
    | none => commitSearch rest

/-- Modelled from the spec: one page request to the releases endpoint of
the session collaborator (`github.py`, not part of the shown core). The
feed is served in fixed-size pages of `per_page` items: page `p` holds the
releases at indices `(p-1)*per_page` to `p*per_page - 1`, in feed order. -/
def apiReleasesPage (feed : List Release) (page per_page : Nat) : List Release :=
  (feed.drop ((page - 1) * per_page)).take per_page

/-- Loop body of the pagination in `get_available_versions`, lines 64 to 72
of `source.py`, with explicit fuel for the `while`. Mirrors the source
exactly, including the slip that the request inside the loop hardcodes
`params={"page": 1, ...}` although the `page` counter was incremented (the
counter is dead). Returns `none` when the fuel runs out before the loop
exits (the Python loop would still be running), otherwise the number of
page requests issued and the aggregated release list. -/
def fetchLoopGo (feed : List Release) : Nat → List Release → List Release → Nat →
    Option (Nat × List Release)
  | fuel, last, releases, count =>
    if last.length = 100 then
      match fuel with
      | 0 => none
      | fuel' + 1 =>
        let last' := apiReleasesPage feed 1 100
        fetchLoopGo feed fuel' last' (releases ++ last') (count + 1)
    else some (count, releases)

/-- Lines 56 to 72 of `source.py`: the initial request for page 1 followed
by the pagination loop. -/
def fetchReleases (feed : List Release) (fuel : Nat) : Option (Nat × List Release) :=
  let last := apiReleasesPage feed 1 100
  fetchLoopGo feed fuel last last 1

/-- Error outcomes of `get_available_versions`: the `ValueError` raised by
unpacking a separator-free tag into `(family, hash)` at line 80 (carrying
the offending tag), and the `ValueError` raised at lines 102 to 105 when no
versions were found (carrying the formatted message). -/
inductive CielError where
  | unpackError : String → CielError
  | notFound : String → CielError
deriving DecidableEq, Repr

/-- The single-quote character, used by the not-found message. -/
def quoteChar : Char := Char.ofNat 39

/-- Message of the `ValueError` at lines 103 to 105 of `source.py`,
interpolating the requested family and the repository identifier. -/
def notFoundMsg (pdk repoId : String) : String :=
  "No versions found for " ++ quoteChar.toString ++ pdk ++ quoteChar.toString
    ++ " on github.com/" ++ repoId

/-- Per-release body of the loop at lines 76 to 99 of `source.py`, for one
non-draft release that passed the family check: the constructed `Version`.
`family` is the part of the tag before the last separator, `hash` the part
after it. -/
def mkVersion (family hash : String) (r : Release) : Version :=
  { name := hash
    pdk := family
    commit_date :=
      match commitSearch r.body.data with
      | none => none
      | some cap => date_from_iso8601 ⟨cap⟩
    upload_date := date_from_iso8601 r.published_at
    prerelease := r.prerelease }

/-- Lines 74 to 99 of `source.py`: walk the aggregated releases in feed
order, skip drafts, unpack each tag at its last `-` (raising on a tag with
no separator, as the Python tuple unpacking does), skip families other than
`pdk`, and collect the constructed versions in feed order. -/
def buildVersions (pdk : String) : List Release → Except CielError (List Version)
  | [] => .ok []
  | r :: rest =>
    if r.draft then buildVersions pdk rest
    else
      match pyRsplit1 '-' r.tag_name with
      | none => .error (.unpackError r.tag_name)
      | some (family, hash) =>
        if pdk = family then
          match buildVersions pdk rest with
          | .error e => .error e
          | .ok vs => .ok (mkVersion family hash r :: vs)
        else buildVersions pdk rest

/-- Chronological key of a timestamp: a strictly monotone encoding of the
lexicographic order on (year, month, day, hour, minute, second) for the
in-range values `validDate` produces. -/
def dateKey (d : Date) : Nat :=
  ((((d.year * 13 + d.month) * 32 + d.day) * 24 + d.hour) * 60 + d.minute) * 60 + d.second

/-- Sort key of an optional upload timestamp; an unset timestamp sorts
before every set one (the spec leaves this case open). -/
def uploadKey : Option Date → Nat
  | none => 0
  | some d => dateKey d + 1

/-- Modelled from the spec: the total order of the `Version` entity
(`common.py`, not part of the shown core), as used by `versions.sort
(reverse=True)` at line 101. Per spec section 3, versions compare primarily
by `upload_date`, newest first when reversed; `vGe a b` says `a` is at
least as new as `b`. Tie-breaking is left open by the spec and is not
relied on by any theorem below. -/
def vGe (a b : Version) : Prop :=
  uploadKey b.upload_date ≤ uploadKey a.upload_date

instance : DecidableRel vGe := fun a b => Nat.decLe _ _

instance : IsTotal Version vGe := ⟨fun a b => Nat.le_total _ _⟩

instance : IsTrans Version vGe := ⟨fun _ _ _ h1 h2 => Nat.le_trans h2 h1⟩

/-- Lines 55 to 106 of `source.py`: `GitHubReleasesDataSource.
get_available_versions`. The repository identifier stands in for the
`RepoInfo` collaborator (modelled from the spec as the combined
`owner/repo` string); the feed and the fuel for the pagination loop are
explicit. Returns `none` when the pagination loop has not terminated
within the given fuel. -/
def get_available_versions (repoId : String) (feed : List Release) (fuel : Nat)
    (pdk : String) : Option (Except CielError (List Version)) :=
  match fetchReleases feed fuel with
  | none => none
  | some (_, releases) =>
    match buildVersions pdk releases with
    | .error e => some (.error e)
    | .ok versions =>
      let sorted := List.insertionSort vGe versions
      if sorted.length = 0 then some (.error (.notFound (notFoundMsg pdk repoId)))
      else some (.ok sorted)

/-- The composite tag `f"{version.pdk}-{version.name}"` that
`get_downloads_for_version` looks up at line 113 of `source.py`. -/
def downloadTag (version : Version) : String :=
  version.pdk ++ "-" ++ version.name

/-- Lines 117 to 125 of `source.py`: keep the assets whose name ends in
`.tar.zst`, in feed order, stripping the 8-character suffix from the name
to obtain the content. -/
def zstFiles : List RawAsset → List Asset
  | [] => []
  | a :: rest =>
    if strEndsWith a.name ".tar.zst" then
      Asset.mk (strDropLast a.name 8) a.name a.browser_download_url :: zstFiles rest
    else zstFiles rest

/-- Lines 108 to 125 of `source.py`: `GitHubReleasesDataSource.
get_downloads_for_version`. The direct release lookup by composite tag is
modelled from the spec as finding the release of the feed with that tag
(`none` models the HTTP status error of a missing tag). -/
def get_downloads_for_version (feed : List Release) (version : Version) :
    Option (List Asset) :=
  match feed.find? (fun r => r.tag_name == downloadTag version) with
  | none => none
  | some release => some (zstFiles release.assets)

/-- Identifiers registered in `DataSource.factory` (line 128 of
`source.py`). -/
def factoryKeys : List String := ["github-releases"]

/-- Outcome of the one-time default data source selection: either a fatal
exit with status -1 (for a malformed selector or an unknown class
identifier, each a distinct message) or the selected class identifier and
its constructor argument. -/
inductive SourceSelection where
  | fatalFormat : SourceSelection
  | fatalUnknown : String → SourceSelection
  | selected : String → String → SourceSelection
deriving DecidableEq, Repr

/-- Whether a selection outcome terminated the process. -/
def SourceSelection.isFatal : SourceSelection → Bool
  | .selected _ _ => false
  | _ => true

/-- Lines 131 to 146 of `source.py`: `__set_data_source_default` applied to
the configuration value (the `CIEL_DATA_SOURCE` variable, defaulting to
`github-releases:efabless/volare`). The value is split at the first `:`
with `maxsplit=1`; a value with no separator is fatal, an unregistered
class identifier is fatal, and otherwise the class is constructed with the
remainder of the value as its argument. -/
def set_data_source_default (source_id : String) : SourceSelection :=
  match pySplit1 ':' source_id with
  | none => .fatalFormat
  | some (cls_id, target) =>
    if factoryKeys.contains cls_id then .selected cls_id target
    else .fatalUnknown cls_id

/-- Per-release characterization of `get_available_versions` used in the
statements below: the version contributed by one release of the feed, or
`none` when the release is a draft, has a separator-free tag, or belongs to
a different family. Mirrors one iteration of the loop at lines 76 to 99 of
`source.py`. -/
def matchVersion (pdk : String) (r : Release) : Option Version :=
  if r.draft then none
  else
    match pyRsplit1 '-' r.tag_name with
    | none => none
    | some (family, hash) =>
      if pdk = family then some (mkVersion family hash r) else none

/-- Fixture helper: a release with no assets. -/
def mkRelease (tag : String) (d : Bool) (pub body : String) : Release :=
  ⟨tag, d, false, pub, body, []⟩

/-- Fixture: a feed of 150 releases, so that page 1 is always full. -/
def feedFullPage : List Release :=
  List.replicate 150 (mkRelease "sky130-aaaaaaa" false "2022-01-01T00:00:00Z" "")

/-- Fixture: the three tags of the family-filtering example. -/
def feedFamilies : List Release :=
  [mkRelease "skyN-abcd123" false "2022-01-01T00:00:00Z" "",
   mkRelease "sky130-ef0123" false "2022-01-02T00:00:00Z" "",
   mkRelease "sky130-extra-9999" false "2022-01-03T00:00:00Z" ""]

/-- Version produced by the `sky130-ef0123` release of `feedFamilies`. -/
def verFamilies : Version :=
  ⟨"ef0123", "sky130", none, some ⟨2022, 1, 2, 0, 0, 0⟩, false⟩

/-- Fixture: a non-draft release whose tag has no separator. -/
def feedNoDash : List Release :=
  [mkRelease "nodash" false "2022-01-01T00:00:00Z" ""]

/-- Fixture: three matching releases with out-of-order upload dates. -/
def feedOrdering : List Release :=
  [mkRelease "sky130-a1" false "2021-01-01T00:00:00Z" "",
   mkRelease "sky130-b2" false "2023-06-15T00:00:00Z" "",
   mkRelease "sky130-c3" false "2022-03-10T00:00:00Z" ""]

/-- Version of `feedOrdering` uploaded 2023-06-15. -/
def verOrdering2023 : Version :=
  ⟨"b2", "sky130", none, some ⟨2023, 6, 15, 0, 0, 0⟩, false⟩

/-- Version of `feedOrdering` uploaded 2022-03-10. -/
def verOrdering2022 : Version :=
  ⟨"c3", "sky130", none, some ⟨2022, 3, 10, 0, 0, 0⟩, false⟩

/-- Version of `feedOrdering` uploaded 2021-01-01. -/
def verOrdering2021 : Version :=
  ⟨"a1", "sky130", none, some ⟨2021, 1, 1, 0, 0, 0⟩, false⟩

/-- Fixture: one non-draft release of a different family. -/
def feedNoMatch : List Release :=
  [mkRelease "gf180-abc" false "2022-01-01T00:00:00Z" ""]

/-- Fixture: a draft release of the requested family next to a non-draft
one. -/
def feedDraft : List Release :=
  [mkRelease "sky130-hidden1" true "2022-09-09T00:00:00Z" "",
   mkRelease "sky130-vis" false "2022-01-05T00:00:00Z" ""]

/-- The only version of `feedDraft` visible to family `sky130`. -/
def verDraft : Version :=
  ⟨"vis", "sky130", none, some ⟨2022, 1, 5, 0, 0, 0⟩, false⟩

/-- Fixture: release bodies with a parseable commit-date annotation, no
annotation, and an unparseable annotation. -/
def feedBodies : List Release :=
  [mkRelease "sky130-aaaaaaa" false "2022-06-03T00:00:00Z"
     "preview released on 2022-05-01T12:00:00Z enjoy",
   mkRelease "sky130-bbbbbbb" false "2022-06-02T00:00:00Z"
     "no timestamp phrase here",
   mkRelease "sky130-ccccccc" false "2022-06-01T00:00:00Z"
     "released on ZZZZ"]

/-- Version of `feedBodies` with the parseable annotation. -/
def verBodyA : Version :=
  ⟨"aaaaaaa", "sky130", some ⟨2022, 5, 1, 12, 0, 0⟩, some ⟨2022, 6, 3, 0, 0, 0⟩, false⟩

/-- Version of `feedBodies` with no annotation. -/
def verBodyB : Version :=
  ⟨"bbbbbbb", "sky130", none, some ⟨2022, 6, 2, 0, 0, 0⟩, false⟩

/-- Version of `feedBodies` with the unparseable annotation. -/
def verBodyC : Version :=
  ⟨"ccccccc", "sky130", none, some ⟨2022, 6, 1, 0, 0, 0⟩, false⟩

/-- Fixture: the asset list of the asset-filtering example. -/
def assetsExample : List RawAsset :=
  [⟨"a.tar.zst", "u1"⟩, ⟨"a.tar.zst.sha256", "u2"⟩, ⟨"readme.md", "u3"⟩]

/-- Fixture: a feed for the download lookups, with a hyphenated family
name; the second release ships no archive-type asset. -/
def feedDownloads : List Release :=
  [⟨"sky-130-deadbeef", false, false, "2022-01-01T00:00:00Z", "", assetsExample⟩,
   ⟨"sky-130-cafef00d", false, false, "2021-01-01T00:00:00Z", "", [⟨"readme.md", "u9"⟩]⟩]

/-- Version of the first release of `feedDownloads`. -/
def verDownloads : Version :=
  ⟨"deadbeef", "sky-130", none, some ⟨2022, 1, 1, 0, 0, 0⟩, false⟩

/-- Version of the second, asset-free release of `feedDownloads`. -/
def verNoAssets : Version :=
  ⟨"cafef00d", "sky-130", none, some ⟨2021, 1, 1, 0, 0, 0⟩, false⟩

/-- Fixture: an asset list with two archive-type assets around a
non-archive one, distinguishing keep-all from keep-only-first behavior. -/
def assetsTwoArchives : List RawAsset :=
  [⟨"a.tar.zst", "u1"⟩, ⟨"x.md", "u2"⟩, ⟨"b.tar.zst", "u4"⟩]

/-- Fixture: a feed whose single release ships two archive-type assets. -/
def feedTwoArchives : List Release :=
  [⟨"sky130-feedface", false, false, "2022-01-01T00:00:00Z", "", assetsTwoArchives⟩]

/-- Version of the release of `feedTwoArchives`. -/
def verTwoArchives : Version :=
  ⟨"feedface", "sky130", none, some ⟨2022, 1, 1, 0, 0, 0⟩, false⟩

/-- Splitting at the last separator recovers the input by concatenation. -/
theorem rsplitLastAux_append (sep : Char) :
    ∀ (l a b : List Char), rsplitLastAux sep l = some (a, b) → a ++ sep :: b = l := by
  intro l
  induction l with
  | nil => intro a b h; simp [rsplitLastAux] at h
  | cons c rest ih =>
    intro a b h
    simp only [rsplitLastAux] at h
    cases hrec : rsplitLastAux sep rest with
    | some p =>
      obtain ⟨p1, p2⟩ := p
      rw [hrec] at h
      simp only [Option.some.injEq, Prod.mk.injEq] at h
      obtain ⟨ha, hb⟩ := h
      subst ha; subst hb
      have := ih p1 p2 hrec
      simpa using congrArg (c :: ·) this
    | none =>
      rw [hrec] at h
      by_cases hc : c = sep
      · rw [if_pos hc] at h
        simp only [Option.some.injEq, Prod.mk.injEq] at h
        obtain ⟨ha, hb⟩ := h
        subst ha; subst hb
        simp [hc]
      · simp [hc] at h

/-- String form of the round trip: a tag that `rsplit` divides into a
family and a hash is the concatenation family, separator, hash. -/
theorem pyRsplit1_append (s f h : String) (hs : pyRsplit1 '-' s = some (f, h)) :
    f ++ "-" ++ h = s := by
  unfold pyRsplit1 at hs
  cases hr : rsplitLastAux '-' s.data with
  | none => rw [hr] at hs; exact absurd hs (by simp)
  | some p =>
    obtain ⟨a, b⟩ := p
    rw [hr] at hs
    simp only [Option.some.injEq, Prod.mk.injEq] at hs
    obtain ⟨hf, hh⟩ := hs
    subst hf; subst hh
    have hdata := rsplitLastAux_append '-' s.data a b hr
    apply String.ext
    simpa [String.data_append] using hdata

/-- A release matched into a version is not a draft, its tag splits into
the version's family and name, the family is the requested one, and the
composite download tag recovers the original tag. -/
theorem matchVersion_spec (pdk : String) (r : Release) (v : Version)
    (h : matchVersion pdk r = some v) :
    r.draft = false ∧ pyRsplit1 '-' r.tag_name = some (v.pdk, v.name) ∧
      v.pdk = pdk ∧ downloadTag v = r.tag_name := by
  unfold matchVersion at h
  split at h
  · exact absurd h (by simp)
  · rename_i hd
    split at h
    · exact absurd h (by simp)
    · rename_i fam hsh hrs
      split at h
      · rename_i hf
        have hv : v = mkVersion fam hsh r := by
          injection h with h1
          exact h1.symm
        subst hv
        refine ⟨Bool.not_eq_true _ ▸ hd, ?_, ?_, ?_⟩
        · simpa [mkVersion] using hrs
        · simp [mkVersion, hf]
        · have := pyRsplit1_append r.tag_name fam hsh hrs
          simpa [downloadTag, mkVersion, hf] using this
      · exact absurd h (by simp)

/-- Page 1 of a feed that fits inside one page is the whole feed. -/
theorem apiReleasesPage_one_small (feed : List Release) (h : feed.length < 100) :
    apiReleasesPage feed 1 100 = feed := by
  unfold apiReleasesPage
  simp [List.take_of_length_le (Nat.le_of_lt h)]

/-- On a feed that fits inside one page, the pagination issues exactly one
request and aggregates exactly the feed, for any fuel. -/
theorem fetchReleases_small (feed : List Release) (fuel : Nat) (h : feed.length < 100) :
    fetchReleases feed fuel = some (1, feed) := by
  unfold fetchReleases
  rw [apiReleasesPage_one_small feed h]
  unfold fetchLoopGo
  rw [if_neg (by omega)]

/-- On a feed of at least a full page, the loop condition holds at every
iteration (the request inside the loop always re-fetches the full page 1),
so the loop never exits within any fuel. -/
theorem fetchLoopGo_full (feed : List Release) (hlen : 100 ≤ feed.length) :
    ∀ (fuel : Nat) (last releases : List Release) (count : Nat),
      last.length = 100 → fetchLoopGo feed fuel last releases count = none := by
  have hpage : (apiReleasesPage feed 1 100).length = 100 := by
    unfold apiReleasesPage
    simp [List.length_take, List.length_drop]
    omega
  intro fuel
  induction fuel with
  | zero =>
    intro last releases count hlast
    unfold fetchLoopGo
    rw [if_pos hlast]
  | succ fuel ih =>
    intro last releases count hlast
    unfold fetchLoopGo
    rw [if_pos hlast]
    exact ih _ _ _ hpage

/-- On a feed of at least a full page, the whole fetch diverges: no amount
of fuel makes the pagination loop terminate. -/
theorem fetchReleases_full (feed : List Release) (hlen : 100 ≤ feed.length) (fuel : Nat) :
    fetchReleases feed fuel = none := by
  have hpage : (apiReleasesPage feed 1 100).length = 100 := by
    unfold apiReleasesPage
    simp [List.length_take, List.length_drop]
    omega
  unfold fetchReleases
  exact fetchLoopGo_full feed hlen fuel _ _ _ hpage

/-- A successful walk over the releases produces, in feed order, exactly
the versions the per-release characterization assigns. -/
theorem buildVersions_ok_eq (pdk : String) :
    ∀ (feed : List Release) (vs : List Version),
      buildVersions pdk feed = .ok vs → vs = feed.filterMap (matchVersion pdk) := by
  intro feed
  induction feed with
  | nil =>
    intro vs h
    unfold buildVersions at h
    injection h with h1
    simp [h1.symm]
  | cons r rest ih =>
    intro vs h
    unfold buildVersions at h
    rw [List.filterMap_cons]
    split at h
    · rename_i hd
      rw [show matchVersion pdk r = none by simp [matchVersion, hd]]
      exact ih vs h
    · rename_i hd
      split at h
      · cases h
      · rename_i fam hsh hrs
        split at h
        · rename_i hf
          split at h
          · cases h
          · rename_i vs' hbv
            injection h with h1
            rw [show matchVersion pdk r = some (mkVersion fam hsh r) by
                  simp [matchVersion, hd, hrs, hf]]
            rw [← h1, ih vs' hbv]
        · rename_i hf
          rw [show matchVersion pdk r = none by simp [matchVersion, hd, hrs, hf]]
          exact ih vs h

/-- When every non-draft release has a separable tag, the walk succeeds
and produces exactly the characterized versions. -/
theorem buildVersions_eq (pdk : String) :
    ∀ feed : List Release,
      (∀ r ∈ feed, r.draft = false → (pyRsplit1 '-' r.tag_name).isSome = true) →
      buildVersions pdk feed = .ok (feed.filterMap (matchVersion pdk)) := by
  intro feed
  induction feed with
  | nil => intro _; simp [buildVersions]
  | cons r rest ih =>
    intro h
    have hrest := ih fun x hx => h x (List.mem_cons_of_mem _ hx)
    have hr := h r (List.mem_cons_self _ _)
    unfold buildVersions
    rw [List.filterMap_cons]
    by_cases hd : r.draft = true
    · rw [if_pos hd, show matchVersion pdk r = none by simp [matchVersion, hd]]
      exact hrest
    · rw [if_neg hd]
      cases hrs : pyRsplit1 '-' r.tag_name with
      | none =>
        exfalso
        have := hr (Bool.not_eq_true _ ▸ hd)
        rw [hrs] at this
        simp at this
      | some p =>
        obtain ⟨fam, hsh⟩ := p
        by_cases hf : pdk = fam
        · simp only [hrest]
          rw [show matchVersion pdk r = some (mkVersion fam hsh r) by
                simp [matchVersion, hd, hrs, hf]]
          simp [hf]
        · simp only [hrest]
          rw [show matchVersion pdk r = none by simp [matchVersion, hd, hrs, hf]]
          simp [hf]

/-- Characterization of a successful `get_available_versions` call on a
feed that fits inside one page: the result is the characterized versions
of the feed, sorted newest first, and is nonempty. -/
theorem gav_ok_eq (repoId pdk : String) (feed : List Release) (fuel : Nat)
    (vs : List Version) (hlen : feed.length < 100)
    (h : get_available_versions repoId feed fuel pdk = some (.ok vs)) :
    vs = List.insertionSort vGe (feed.filterMap (matchVersion pdk)) ∧ vs ≠ [] := by
  unfold get_available_versions at h
  rw [fetchReleases_small feed fuel hlen] at h
  have h' : (match buildVersions pdk feed with
      | Except.error e => some (Except.error e)
      | Except.ok versions =>
        if (List.insertionSort vGe versions).length = 0 then
          some (Except.error (CielError.notFound (notFoundMsg pdk repoId)))
        else some (Except.ok (List.insertionSort vGe versions))) = some (Except.ok vs) := h
  clear h
  split at h'
  · exact absurd h' (by simp)
  · rename_i versions hbv
    split at h'
    · exact absurd h' (by simp)
    · rename_i hz
      injection h' with h1
      injection h1 with h2
      constructor
      · rw [← h2, buildVersions_ok_eq pdk feed versions hbv]
      · intro hnil
        rw [hnil] at h2
        exact hz (by simp [h2])

/-- Shape of `get_available_versions` on a single-page feed whose walk
succeeded: the not-found error with the interpolated message exactly when
the collected list is empty, the sorted list otherwise. -/
theorem gav_of_build_ok (repoId pdk : String) (feed : List Release) (fuel : Nat)
    (vs : List Version) (hlen : feed.length < 100)
    (hb : buildVersions pdk feed = .ok vs) :
    get_available_versions repoId feed fuel pdk =
      (if vs = [] then some (.error (.notFound (notFoundMsg pdk repoId)))
       else some (.ok (List.insertionSort vGe vs))) := by
  unfold get_available_versions
  rw [fetchReleases_small feed fuel hlen]
  show (match buildVersions pdk feed with
      | Except.error e => some (Except.error e)
      | Except.ok versions =>
        if (List.insertionSort vGe versions).length = 0 then
          some (Except.error (CielError.notFound (notFoundMsg pdk repoId)))
        else some (Except.ok (List.insertionSort vGe versions))) = _
  rw [hb]
  by_cases hv : vs = []
  · subst hv
    simp
  · rw [if_neg hv]
    have hlen0 : ¬(List.insertionSort vGe vs).length = 0 := by
      have hpl := (List.perm_insertionSort vGe vs).length_eq
      intro h0
      exact hv (List.length_eq_zero.mp (by omega))
    show (if (List.insertionSort vGe vs).length = 0 then _ else _) = _
    rw [if_neg hlen0]

/-- An asset whose name carries the archive suffix is recovered by
appending the suffix to the stripped content. -/
theorem strEndsWith_append (s suffix : String) (h : strEndsWith s suffix = true) :
    strDropLast s suffix.data.length ++ suffix = s := by
  unfold strEndsWith at h
  simp only [decide_eq_true_eq] at h
  obtain ⟨h1, h2⟩ := h
  apply String.ext
  show (strDropLast s suffix.data.length).data ++ suffix.data = s.data
  unfold strDropLast
  show s.data.take (s.data.length - suffix.data.length) ++ suffix.data = s.data
  have hsplit := List.take_append_drop (s.data.length - suffix.data.length) s.data
  rw [h2] at hsplit
  exact hsplit

/-- Every kept asset of `zstFiles` comes from a raw asset of the input
whose name ends in the archive suffix, with the content obtained by
stripping the 8-character suffix. -/
theorem zstFiles_mem :
    ∀ (assets : List RawAsset) (x : Asset), x ∈ zstFiles assets →
      ∃ raw, raw ∈ assets ∧ strEndsWith raw.name ".tar.zst" = true ∧
        x = Asset.mk (strDropLast raw.name 8) raw.name raw.browser_download_url := by
  intro assets
  induction assets with
  | nil => intro x hx; simp [zstFiles] at hx
  | cons a rest ih =>
    intro x hx
    unfold zstFiles at hx
    by_cases ha : strEndsWith a.name ".tar.zst" = true
    · rw [if_pos ha] at hx
      rcases List.mem_cons.mp hx with h1 | h2
      · exact ⟨a, List.mem_cons_self _ _, ha, h1⟩
      · obtain ⟨raw, hr1, hr2, hr3⟩ := ih x h2
        exact ⟨raw, List.mem_cons_of_mem _ hr1, hr2, hr3⟩
    · rw [if_neg ha] at hx
      obtain ⟨raw, hr1, hr2, hr3⟩ := ih x hx
      exact ⟨raw, List.mem_cons_of_mem _ hr1, hr2, hr3⟩

/-- The kept assets appear in feed order: `zstFiles` is a sublist of the
asset list mapped through the content derivation. -/
theorem zstFiles_sublist (assets : List RawAsset) :
    (zstFiles assets).Sublist (assets.map fun a =>
      Asset.mk (strDropLast a.name 8) a.name a.browser_download_url) := by
  induction assets with
  | nil => simp [zstFiles]
  | cons a rest ih =>
    unfold zstFiles
    by_cases ha : strEndsWith a.name ".tar.zst" = true
    · rw [if_pos ha]
      exact List.Sublist.cons₂ _ ih
    · rw [if_neg ha]
      exact List.Sublist.cons _ ih

/-- `zstFiles` is exactly the feed-order filter-map of the suffix test and
the content derivation: every asset whose name ends in the archive suffix
is kept (with its stripped content and its url), every other asset is
dropped, and feed order is preserved, multiplicity included. -/
theorem zstFiles_eq_filterMap :
    ∀ assets : List RawAsset, zstFiles assets = assets.filterMap fun a =>
      if strEndsWith a.name ".tar.zst" then
        some (Asset.mk (strDropLast a.name 8) a.name a.browser_download_url)
      else none := by
  intro assets
  induction assets with
  | nil => simp [zstFiles]
  | cons a rest ih =>
    unfold zstFiles
    rw [List.filterMap_cons]
    by_cases ha : strEndsWith a.name ".tar.zst" = true
    · simp [ha, ih]
    · simp [ha, ih]

/-- The not-found message contains the requested family and the repository
identifier verbatim. -/
theorem notFoundMsg_names (p r : String) :
    p.data.IsInfix (notFoundMsg p r).data ∧ r.data.IsInfix (notFoundMsg p r).data := by
  constructor
  · refine ⟨("No versions found for " ++ quoteChar.toString).data,
      (quoteChar.toString ++ " on github.com/" ++ r).data, ?_⟩
    simp [notFoundMsg, String.data_append, List.append_assoc]
  · refine ⟨("No versions found for " ++ quoteChar.toString ++ p ++ quoteChar.toString
      ++ " on github.com/").data, [], ?_⟩
    simp [notFoundMsg, String.data_append, List.append_assoc]

/-- Shape of `get_available_versions` on a single-page feed whose walk
raised: the error propagates. -/
theorem gav_of_build_error (repoId pdk : String) (feed : List Release) (fuel : Nat)
    (e : CielError) (hlen : feed.length < 100)
    (hb : buildVersions pdk feed = .error e) :
    get_available_versions repoId feed fuel pdk = some (.error e) := by
  unfold get_available_versions
  rw [fetchReleases_small feed fuel hlen]
  show (match buildVersions pdk feed with
      | Except.error e => some (Except.error e)
      | Except.ok versions =>
        if (List.insertionSort vGe versions).length = 0 then
          some (Except.error (CielError.notFound (notFoundMsg pdk repoId)))
        else some (Except.ok (List.insertionSort vGe versions))) = _
  rw [hb]

/-- C1: the claim says that for a feed of exactly N releases served in
pages of at most 100 items, `get_available_versions` issues exactly
ceil(N/100) page requests, requesting subsequent pages while the previous
page was full, and aggregates each release exactly once. The code violates
this: the request inside the pagination loop hardcodes page 1 (the
incremented `page` counter is dead), so on a feed of 150 releases, where
page 1 is always full, the loop re-fetches page 1 forever and the call
never terminates: the fetch is still running after every fuel bound,
instead of finishing after 2 requests. -/
theorem claim_C1_pagination_code_bug (fuel : Nat) :
    fetchReleases feedFullPage fuel = none ∧
      get_available_versions "efabless/volare" feedFullPage fuel "sky130" = none := by
  have hlen : 100 ≤ feedFullPage.length := by
    simp [feedFullPage]
  refine ⟨fetchReleases_full _ hlen fuel, ?_⟩
  unfold get_available_versions
  rw [fetchReleases_full _ hlen fuel]

/-- C2: on a feed that fits in one page, a successful
`get_available_versions pdk` returns a version for exactly those non-draft
releases whose tag name, divided at the last `-`, has family part equal to
`pdk`; in particular, of the tags `skyN-abcd123`, `sky130-ef0123` and
`sky130-extra-9999`, requesting `sky130` yields exactly the version of
`sky130-ef0123` (`sky130-extra-9999` splits into family `sky130-extra`,
which does not match). -/
theorem claim_C2_family_filtering (repoId pdk : String) (feed : List Release)
    (fuel : Nat) (vs : List Version) (hlen : feed.length < 100)
    (h : get_available_versions repoId feed fuel pdk = some (.ok vs)) :
    vs.Perm (feed.filterMap (matchVersion pdk)) ∧
      get_available_versions "efabless/volare" feedFamilies 0 "sky130" =
        some (.ok [verFamilies]) := by
  obtain ⟨heq, -⟩ := gav_ok_eq repoId pdk feed fuel vs hlen h
  subst heq
  exact ⟨List.perm_insertionSort vGe _, rfl⟩

/-- Witness for C2 at the family-filtering example feed. -/
theorem claim_C2_family_filtering_witness :
    ([verFamilies].Perm (feedFamilies.filterMap (matchVersion "sky130"))) ∧
      get_available_versions "efabless/volare" feedFamilies 0 "sky130" =
        some (.ok [verFamilies]) :=
  claim_C2_family_filtering "efabless/volare" "sky130" feedFamilies 0 [verFamilies]
    (by decide) (by rfl)

/-- C3: the claim says a non-draft release whose tag has no `-` separator
is skipped and never causes the call to fail. The code violates this: the
tuple unpacking of `rsplit` raises `ValueError` on such a tag, so a feed
holding the tag `nodash` makes `get_available_versions` raise for every
requested family, instead of skipping the release. -/
theorem claim_C3_malformed_tag_code_bug (pdk : String) (fuel : Nat) :
    get_available_versions "efabless/volare" feedNoDash fuel pdk =
      some (.error (.unpackError "nodash")) ∧
      pyRsplit1 '-' "nodash" = none := by
  refine ⟨?_, rfl⟩
  exact gav_of_build_error "efabless/volare" pdk feedNoDash fuel
    (.unpackError "nodash") (by decide) rfl

/-- C4: every list a successful `get_available_versions` returns on a
single-page feed is already sorted newest first by the Version order
(primarily descending upload date); in particular three matching versions
with upload dates 2021-01-01, 2023-06-15 and 2022-03-10 come back in the
order 2023-06-15, 2022-03-10, 2021-01-01. -/
theorem claim_C4_ordering (repoId pdk : String) (feed : List Release) (fuel : Nat)
    (vs : List Version) (hlen : feed.length < 100)
    (h : get_available_versions repoId feed fuel pdk = some (.ok vs)) :
    List.Sorted vGe vs ∧
      get_available_versions "efabless/volare" feedOrdering 0 "sky130" =
        some (.ok [verOrdering2023, verOrdering2022, verOrdering2021]) := by
  obtain ⟨heq, -⟩ := gav_ok_eq repoId pdk feed fuel vs hlen h
  subst heq
  exact ⟨List.sorted_insertionSort vGe _, rfl⟩

/-- Witness for C4 at the ordering example feed. -/
theorem claim_C4_ordering_witness :
    List.Sorted vGe [verOrdering2023, verOrdering2022, verOrdering2021] ∧
      get_available_versions "efabless/volare" feedOrdering 0 "sky130" =
        some (.ok [verOrdering2023, verOrdering2022, verOrdering2021]) :=
  claim_C4_ordering "efabless/volare" "sky130" feedOrdering 0
    [verOrdering2023, verOrdering2022, verOrdering2021] (by decide) (by rfl)

/-- C5: on a single-page feed whose walk collected `vs`,
`get_available_versions` raises the not-found error, whose message
interpolates both the requested family and the repository identifier,
exactly when `vs` is empty; a successful return is never the empty list;
and the message contains the family and the repository identifier
verbatim. The concrete conjunct shows the error on a feed with no matching
release. -/
theorem claim_C5_empty_result (repoId pdk : String) (feed : List Release) (fuel : Nat)
    (vs : List Version) (hlen : feed.length < 100)
    (hb : buildVersions pdk feed = .ok vs) :
    ((get_available_versions repoId feed fuel pdk =
        some (.error (.notFound (notFoundMsg pdk repoId)))) ↔ vs = []) ∧
      (∀ ws, get_available_versions repoId feed fuel pdk = some (.ok ws) → ws ≠ []) ∧
      (∀ p r : String, p.data.IsInfix (notFoundMsg p r).data ∧
        r.data.IsInfix (notFoundMsg p r).data) ∧
      get_available_versions "efabless/volare" feedNoMatch 0 "sky130" =
        some (.error (.notFound (notFoundMsg "sky130" "efabless/volare"))) := by
  have hg := gav_of_build_ok repoId pdk feed fuel vs hlen hb
  refine ⟨?_, ?_, notFoundMsg_names, rfl⟩
  · rw [hg]
    by_cases hv : vs = []
    · simp [hv]
    · rw [if_neg hv]
      simp [hv]
  · intro ws hws
    rw [hg] at hws
    by_cases hv : vs = []
    · rw [if_pos hv] at hws
      exact absurd hws (by simp)
    · rw [if_neg hv] at hws
      injection hws with h1
      injection h1 with h2
      intro hnil
      apply hv
      have hpl := (List.perm_insertionSort vGe vs).length_eq
      rw [h2, hnil] at hpl
      exact List.length_eq_zero.mp hpl.symm

/-- Witness for C5 at the no-matching-release feed. -/
theorem claim_C5_empty_result_witness :
    ((get_available_versions "efabless/volare" feedNoMatch 0 "sky130" =
        some (.error (.notFound (notFoundMsg "sky130" "efabless/volare")))) ↔
          ([] : List Version) = []) ∧
      (∀ ws, get_available_versions "efabless/volare" feedNoMatch 0 "sky130" =
        some (.ok ws) → ws ≠ []) ∧
      (∀ p r : String, p.data.IsInfix (notFoundMsg p r).data ∧
        r.data.IsInfix (notFoundMsg p r).data) ∧
      get_available_versions "efabless/volare" feedNoMatch 0 "sky130" =
        some (.error (.notFound (notFoundMsg "sky130" "efabless/volare"))) :=
  claim_C5_empty_result "efabless/volare" "sky130" feedNoMatch 0 []
    (by decide) (by rfl)

/-- C6: every version a successful single-page `get_available_versions`
returns comes from a non-draft release of the feed, so a draft release
never contributes a version, regardless of its tag; in particular a feed
with a matching draft release and a matching non-draft one yields only the
latter's version. -/
theorem claim_C6_draft_exclusion (repoId pdk : String) (feed : List Release)
    (fuel : Nat) (vs : List Version) (v : Version) (hlen : feed.length < 100)
    (h : get_available_versions repoId feed fuel pdk = some (.ok vs)) (hv : v ∈ vs) :
    (∃ r, r ∈ feed ∧ r.draft = false ∧ matchVersion pdk r = some v) ∧
      get_available_versions "efabless/volare" feedDraft 0 "sky130" =
        some (.ok [verDraft]) := by
  obtain ⟨heq, -⟩ := gav_ok_eq repoId pdk feed fuel vs hlen h
  subst heq
  have hv' : v ∈ feed.filterMap (matchVersion pdk) :=
    (List.perm_insertionSort vGe _).mem_iff.mp hv
  obtain ⟨r, hr, hm⟩ := List.mem_filterMap.mp hv'
  exact ⟨⟨r, hr, (matchVersion_spec pdk r v hm).1, hm⟩, rfl⟩

/-- Witness for C6 at the draft-exclusion feed. -/
theorem claim_C6_draft_exclusion_witness :
    (∃ r, r ∈ feedDraft ∧ r.draft = false ∧ matchVersion "sky130" r = some verDraft) ∧
      get_available_versions "efabless/volare" feedDraft 0 "sky130" =
        some (.ok [verDraft]) :=
  claim_C6_draft_exclusion "efabless/volare" "sky130" feedDraft 0 [verDraft] verDraft
    (by decide) (by rfl) (by decide)

/-- C7: release bodies never make `get_available_versions` fail on a
single-page feed of separable tags: the only possible error is the
not-found one. Concretely, a body containing
`released on 2022-05-01T12:00:00Z` yields that commit date, a body without
the phrase yields an unset commit date, and a body whose annotation is
unparseable (`released on ZZZZ`) also yields an unset commit date, all
without an error. -/
theorem claim_C7_commit_date (repoId pdk : String) (feed : List Release) (fuel : Nat)
    (hlen : feed.length < 100)
    (htags : ∀ r ∈ feed, r.draft = false → (pyRsplit1 '-' r.tag_name).isSome = true) :
    (∀ e, get_available_versions repoId feed fuel pdk = some (.error e) →
        ∃ m, e = CielError.notFound m) ∧
      get_available_versions "efabless/volare" feedBodies 0 "sky130" =
        some (.ok [verBodyA, verBodyB, verBodyC]) := by
  refine ⟨?_, rfl⟩
  intro e he
  have hb := buildVersions_eq pdk feed htags
  rw [gav_of_build_ok repoId pdk feed fuel _ hlen hb] at he
  by_cases hv : feed.filterMap (matchVersion pdk) = []
  · rw [if_pos hv] at he
    injection he with h1
    injection h1 with h2
    exact ⟨notFoundMsg pdk repoId, h2.symm⟩
  · rw [if_neg hv] at he
    exact absurd he (by simp)

/-- Witness for C7 at the bodies example feed. -/
theorem claim_C7_commit_date_witness :
    (∀ e, get_available_versions "efabless/volare" feedBodies 0 "sky130" =
        some (.error e) → ∃ m, e = CielError.notFound m) ∧
      get_available_versions "efabless/volare" feedBodies 0 "sky130" =
        some (.ok [verBodyA, verBodyB, verBodyC]) :=
  claim_C7_commit_date "efabless/volare" "sky130" feedBodies 0 (by decide) (by decide)

/-- C8: `get_downloads_for_version` keeps exactly the assets whose
filename ends in `.tar.zst`, in feed order: soundness (every kept asset
ends in the suffix, with content obtained by stripping it, so content plus
suffix recovers the filename, and comes from the input list), completeness
(every suffix-matching asset of the input is kept), and the full
characterization as the feed-order filter-map of the suffix test.
Concretely, the assets `a.tar.zst`, `a.tar.zst.sha256`, `readme.md` yield
exactly one asset with content `a` and filename `a.tar.zst`; a release
with zero archive-type assets yields an empty result without error; and a
release with two archive-type assets yields both, in feed order. -/
theorem claim_C8_asset_filtering (assets : List RawAsset) (x : Asset)
    (hx : x ∈ zstFiles assets) :
    (x.content ++ ".tar.zst" = x.filename ∧
      ∃ raw, raw ∈ assets ∧ raw.name = x.filename ∧ raw.browser_download_url = x.url) ∧
      (∀ raw, raw ∈ assets → strEndsWith raw.name ".tar.zst" = true →
        Asset.mk (strDropLast raw.name 8) raw.name raw.browser_download_url ∈
          zstFiles assets) ∧
      (zstFiles assets = assets.filterMap fun a =>
        if strEndsWith a.name ".tar.zst" then
          some (Asset.mk (strDropLast a.name 8) a.name a.browser_download_url)
        else none) ∧
      (zstFiles assets).Sublist (assets.map fun a =>
        Asset.mk (strDropLast a.name 8) a.name a.browser_download_url) ∧
      get_downloads_for_version feedDownloads verDownloads =
        some [Asset.mk "a" "a.tar.zst" "u1"] ∧
      get_downloads_for_version feedDownloads verNoAssets = some [] ∧
      get_downloads_for_version feedTwoArchives verTwoArchives =
        some [Asset.mk "a" "a.tar.zst" "u1", Asset.mk "b" "b.tar.zst" "u4"] := by
  obtain ⟨raw, hr1, hr2, hr3⟩ := zstFiles_mem assets x hx
  subst hr3
  refine ⟨⟨?_, raw, hr1, rfl, rfl⟩, ?_, zstFiles_eq_filterMap assets,
    zstFiles_sublist assets, rfl, rfl, rfl⟩
  · have hsfx := strEndsWith_append raw.name ".tar.zst" hr2
    have h8 : (".tar.zst" : String).data.length = 8 := rfl
    rw [h8] at hsfx
    exact hsfx
  · intro raw2 hraw2 hsfx2
    rw [zstFiles_eq_filterMap assets]
    exact List.mem_filterMap.mpr ⟨raw2, hraw2, by rw [if_pos hsfx2]⟩

/-- Witness for C8 at the two-archive asset list. -/
theorem claim_C8_asset_filtering_witness :
    ((Asset.mk "a" "a.tar.zst" "u1").content ++ ".tar.zst" =
        (Asset.mk "a" "a.tar.zst" "u1").filename ∧
      ∃ raw, raw ∈ assetsTwoArchives ∧
        raw.name = (Asset.mk "a" "a.tar.zst" "u1").filename ∧
        raw.browser_download_url = (Asset.mk "a" "a.tar.zst" "u1").url) ∧
      (∀ raw, raw ∈ assetsTwoArchives → strEndsWith raw.name ".tar.zst" = true →
        Asset.mk (strDropLast raw.name 8) raw.name raw.browser_download_url ∈
          zstFiles assetsTwoArchives) ∧
      (zstFiles assetsTwoArchives = assetsTwoArchives.filterMap fun a =>
        if strEndsWith a.name ".tar.zst" then
          some (Asset.mk (strDropLast a.name 8) a.name a.browser_download_url)
        else none) ∧
      (zstFiles assetsTwoArchives).Sublist (assetsTwoArchives.map fun a =>
        Asset.mk (strDropLast a.name 8) a.name a.browser_download_url) ∧
      get_downloads_for_version feedDownloads verDownloads =
        some [Asset.mk "a" "a.tar.zst" "u1"] ∧
      get_downloads_for_version feedDownloads verNoAssets = some [] ∧
      get_downloads_for_version feedTwoArchives verTwoArchives =
        some [Asset.mk "a" "a.tar.zst" "u1", Asset.mk "b" "b.tar.zst" "u4"] :=
  claim_C8_asset_filtering assetsTwoArchives (Asset.mk "a" "a.tar.zst" "u1") (by decide)

/-- C9 counterexample: the claim says a configuration value with extra
separators, such as `github-releases:efabless/volare:x`, is malformed and
fatal. The code splits at the first separator only (`maxsplit=1`), so this
value is accepted: it selects the `github-releases` backend with argument
`efabless/volare:x` and does not terminate the process. -/
theorem claim_C9_counterexample :
    set_data_source_default "github-releases:efabless/volare:x" =
      SourceSelection.selected "github-releases" "efabless/volare:x" ∧
      (set_data_source_default "github-releases:efabless/volare:x").isFatal = false :=
  ⟨rfl, rfl⟩

/-- C9 as amended: default data-source initialization splits the
configuration value at the FIRST `:`; `github-releases:efabless/volare`
selects the GitHub backend bound to `efabless/volare`, a value with no
separator (`no-colon-here`) is fatal, an unknown backend identifier
(`bogus:x`) is fatal, and additional separators are absorbed into the
argument rather than rejected. -/
theorem claim_C9_registry_selection :
    set_data_source_default "github-releases:efabless/volare" =
      SourceSelection.selected "github-releases" "efabless/volare" ∧
      set_data_source_default "no-colon-here" = SourceSelection.fatalFormat ∧
      set_data_source_default "bogus:x" = SourceSelection.fatalUnknown "bogus" ∧
      set_data_source_default "github-releases:efabless/volare:x" =
        SourceSelection.selected "github-releases" "efabless/volare:x" :=
  ⟨rfl, rfl, rfl, rfl⟩

/-- C10: every version a successful single-page `get_available_versions`
returns comes from a release of the feed whose tag is recovered exactly by
concatenating the version's family, `-`, and the version's name, and that
concatenation is the composite tag `get_downloads_for_version` looks up;
concretely, the release tagged `sky-130-deadbeef` (a family with a hyphen)
yields a version whose download tag is again `sky-130-deadbeef`, and the
download lookup for it finds that very release. -/
theorem claim_C10_tag_round_trip (repoId pdk : String) (feed : List Release)
    (fuel : Nat) (vs : List Version) (v : Version) (hlen : feed.length < 100)
    (h : get_available_versions repoId feed fuel pdk = some (.ok vs)) (hv : v ∈ vs) :
    (∃ r, r ∈ feed ∧ matchVersion pdk r = some v ∧
      v.pdk ++ "-" ++ v.name = r.tag_name ∧ downloadTag v = r.tag_name) ∧
      downloadTag verDownloads = "sky-130-deadbeef" ∧
      get_downloads_for_version feedDownloads verDownloads =
        some [Asset.mk "a" "a.tar.zst" "u1"] := by
  obtain ⟨heq, -⟩ := gav_ok_eq repoId pdk feed fuel vs hlen h
  subst heq
  have hv' : v ∈ feed.filterMap (matchVersion pdk) :=
    (List.perm_insertionSort vGe _).mem_iff.mp hv
  obtain ⟨r, hr, hm⟩ := List.mem_filterMap.mp hv'
  obtain ⟨-, hsplit, -, htag⟩ := matchVersion_spec pdk r v hm
  exact ⟨⟨r, hr, hm, pyRsplit1_append r.tag_name v.pdk v.name hsplit, htag⟩, rfl, rfl⟩

/-- Witness for C10 at the hyphenated-family feed. -/
theorem claim_C10_tag_round_trip_witness :
    (∃ r, r ∈ feedDownloads ∧ matchVersion "sky-130" r = some verDownloads ∧
      verDownloads.pdk ++ "-" ++ verDownloads.name = r.tag_name ∧
      downloadTag verDownloads = r.tag_name) ∧
      downloadTag verDownloads = "sky-130-deadbeef" ∧
      get_downloads_for_version feedDownloads verDownloads =
        some [Asset.mk "a" "a.tar.zst" "u1"] :=
  claim_C10_tag_round_trip "efabless/volare" "sky-130" feedDownloads 0
    [verDownloads, verNoAssets] verDownloads (by decide) (by rfl) (by decide)
